import Mathlib

/-!
Verification of the data-consistency core of the mini student/teacher portal:
the attendance ledger (per-day documents with denormalized summaries), the
roster store with soft-delete/restore and email uniqueness, the assignment
tracker (per-student status maps synchronized against the roster), and the
submission review flow.

Firestore documents keyed by string ids are modelled as association lists
`List (String × α)`; writing a document (`setDoc`, JS object assignment
`m[k] = v`) is `setKey`, reading is `getKey`, and a field-path `updateDoc`
on an existing document is `updateEntry`.
-/

namespace Portal

/-- Read the value stored at key `k` (first matching entry). -/
def getKey {α : Type} : List (String × α) → String → Option α
  | [], _ => none
  | p :: ps, k => if p.1 = k then some p.2 else getKey ps k

/-- Store `v` at key `k`: replace an existing entry, else append. -/
def setKey {α : Type} : List (String × α) → String → α → List (String × α)
  | [], k, v => [(k, v)]
  | p :: ps, k, v => if p.1 = k then (k, v) :: ps else p :: setKey ps k v

/-- Apply `f` to the entry stored at key `k`, if any (models a field-path
`updateDoc` on an existing document). -/
def updateEntry {α : Type} : List (String × α) → String → (α → α) → List (String × α)
  | [], _, _ => []
  | p :: ps, k, f => (if p.1 = k then (p.1, f p.2) else p) :: updateEntry ps k f

/-! ## Attendance ledger (mark-attendance page, `handleSaveAll`) -/

/-- `AttendanceStatus` from `lib/types`: `"Present" | "Absent" | "Leave"`. -/
inductive AttendanceStatus where
  | Present
  | Absent
  | Leave
deriving DecidableEq, Repr

/-- One record inside a day document's `records` map. -/
structure AttendanceRecord where
  id : String
  studentId : String
  studentName : String
  email : String
  date : String
  status : AttendanceStatus
  note : String
  updatedAt : Nat
deriving DecidableEq, Repr

/-- An attendee as loaded from the `attendees` collection (`{ id, ...data }`).
`restoredAt` is set only on entries re-created by `handleRestore`. -/
structure Attendee where
  id : String
  name : String
  email : String
  createdAt : Nat
  restoredAt : Option Nat
deriving DecidableEq, Repr

/-- The per-attendee edit state (`attendanceData[attendeeId]`): a chosen status
and a note. An attendee with no entry has no chosen status. -/
structure AttendanceEdit where
  status : AttendanceStatus
  note : String
deriving DecidableEq, Repr

/-- The record `handleSaveAll` writes for an attendee with a chosen status. -/
def mkRecord (dateStr : String) (a : Attendee) (e : AttendanceEdit) (now : Nat) :
    AttendanceRecord :=
  { id := dateStr ++ "_" ++ a.id
    studentId := a.id
    studentName := a.name
    email := a.email
    date := dateStr
    status := e.status
    note := e.note
    updatedAt := now }

/-- The merge step of `handleSaveAll`: starting from the existing `records`
map of the day document, upsert a record for every attendee that has a chosen
status, skipping attendees without one. -/
def saveDayRecords (dateStr : String) (existing : List (String × AttendanceRecord))
    (attendees : List Attendee) (attendanceData : String → Option AttendanceEdit)
    (now : Nat) : List (String × AttendanceRecord) :=
  attendees.foldl
    (fun recs a =>
      match attendanceData a.id with
      | some e => setKey recs a.id (mkRecord dateStr a e now)
      | none => recs)
    existing

/-- The denormalized `summary` field of a day document. -/
structure Summary where
  present : Nat
  absent : Nat
  leave : Nat
  total : Nat
deriving DecidableEq, Repr

/-- One step of the recount loop of `handleSaveAll`: an if/else-if chain over
`Present`/`Absent`/`Leave`. -/
def tallyStep (s : Summary) (p : String × AttendanceRecord) : Summary :=
  match p.2.status with
  | .Present => { s with present := s.present + 1 }
  | .Absent => { s with absent := s.absent + 1 }
  | .Leave => { s with leave := s.leave + 1 }

/-- The recount step of `handleSaveAll`: tally the merged records by status,
then set `total := Object.keys(records).length`. -/
def computeSummary (records : List (String × AttendanceRecord)) : Summary :=
  let base : Summary :=
    records.foldl tallyStep ({ present := 0, absent := 0, leave := 0, total := 0 } : Summary)
  { base with total := records.length }

/-- Number of records in a records map carrying a given status. -/
def countStatus (records : List (String × AttendanceRecord)) (st : AttendanceStatus) :
    Nat :=
  (records.filter (fun p => p.2.status = st)).length

/-- Internal key-consistency of a day document: every record is stored under
its own student id, carries the document's date key, and its `id` field is
`date_studentId`. The student-facing readers recover student id and date from
these embedded fields. -/
def keyConsistent (dateStr : String) (records : List (String × AttendanceRecord)) :
    Prop :=
  ∀ p ∈ records, p.2.studentId = p.1 ∧ p.2.date = dateStr ∧
    p.2.id = dateStr ++ "_" ++ p.1

/-! ## Roster store (attendees page: `AttendeeForm.onSubmit` add mode,
`handleSoftDelete`, `handleRestore`) -/

/-- An entry of the `deleted_attendees` collection (`{ id, ...data }`):
the spread of the deleted attendee plus `originalId` and `deletedAt`. -/
structure ArchivedAttendee where
  id : String
  name : String
  email : String
  createdAt : Nat
  restoredAt : Option Nat
  originalId : Option String
  deletedAt : Nat
deriving DecidableEq, Repr

/-- Find an active attendee document by id. -/
def findById (l : List Attendee) (i : String) : Option Attendee :=
  l.find? (fun b => b.id = i)

/-- Find an archived attendee document by id. -/
def findArchById (l : List ArchivedAttendee) (i : String) : Option ArchivedAttendee :=
  l.find? (fun b => b.id = i)

/-- `setDoc` into the active collection: replace the document with the same
id, else append. -/
def setById : List Attendee → Attendee → List Attendee
  | [], x => [x]
  | b :: rest, x => if b.id = x.id then x :: rest else b :: setById rest x

/-- `setDoc` into the archive collection: replace the document with the same
id, else append. -/
def setArchById : List ArchivedAttendee → ArchivedAttendee → List ArchivedAttendee
  | [], x => [x]
  | b :: rest, x => if b.id = x.id then x :: rest else b :: setArchById rest x

/-- `AttendeeForm.onSubmit` in add mode (`attendeeToEdit = null`): the email
uniqueness check queries both collections with an exact-equality `where`
clause; any hit in either collection is a duplicate. Otherwise `addDoc`
creates a fresh active document (with a store-generated id `newId`). -/
def addAttendee (active : List Attendee) (archived : List ArchivedAttendee)
    (name email : String) (newId : String) (now : Nat) :
    Except String (List Attendee) :=
  let activeHit := active.any (fun a => a.email = email)
  let deletedHit := archived.any (fun a => a.email = email)
  if activeHit || deletedHit then
    Except.error "DuplicateEmail"
  else
    Except.ok (active ++ [{ id := newId, name := name, email := email,
                            createdAt := now, restoredAt := none }])

/-- `handleSoftDelete`: copy the attendee (spread) plus `originalId` and
`deletedAt` into `deleted_attendees` under the same id, then delete the
active document. -/
def handleSoftDelete (active : List Attendee) (archived : List ArchivedAttendee)
    (attendee : Attendee) (now : Nat) :
    List Attendee × List ArchivedAttendee :=
  let arch : ArchivedAttendee :=
    { id := attendee.id, name := attendee.name, email := attendee.email,
      createdAt := attendee.createdAt, restoredAt := attendee.restoredAt,
      originalId := some attendee.id, deletedAt := now }
  (active.filter (fun b => b.id ≠ attendee.id), setArchById archived arch)

/-- The active entry `handleRestore` re-creates: the archived data without
`originalId`/`deletedAt`, written under `attendee.originalId || attendee.id`,
keeping `createdAt` and stamping `restoredAt`. -/
def restoredAttendee (a : ArchivedAttendee) (now : Nat) : Attendee :=
  { id := a.originalId.getD a.id, name := a.name, email := a.email,
    createdAt := a.createdAt, restoredAt := some now }

/-- `handleRestore`: abort (leaving both collections unchanged) if an active
document holds the same email; otherwise re-create the active document under
the original id and delete the archive document. -/
def handleRestore (active : List Attendee) (archived : List ArchivedAttendee)
    (a : ArchivedAttendee) (now : Nat) :
    List Attendee × List ArchivedAttendee :=
  if active.any (fun b => b.email = a.email) then
    (active, archived)
  else
    (setById active (restoredAttendee a now),
     archived.filter (fun x => x.id ≠ a.id))

/-! ## Assignment tracker (assignment detail page: `handleSyncAttendees`;
create-assignment page: `onSubmit`) -/

/-- `AssignmentStatus` from `lib/types`: `"Assigned" | "Submitted" | "Graded"`. -/
inductive AssignmentStatus where
  | Assigned
  | Submitted
  | Graded
deriving DecidableEq, Repr

/-- One entry of an assignment's `statusMap`. `fileURL`/`fileName` are absent
(`none`) until a submission writes them. -/
structure StatusEntry where
  studentId : String
  studentName : String
  email : String
  status : AssignmentStatus
  grade : String
  note : String
  fileURL : Option String
  fileName : Option String
  updatedAt : Nat
deriving DecidableEq, Repr

/-- The fresh `Assigned` entry seeded for an attendee, as built both by
assignment creation and by roster sync. -/
def assignedEntry (a : Attendee) (now : Nat) : StatusEntry :=
  { studentId := a.id, studentName := a.name, email := a.email,
    status := AssignmentStatus.Assigned, grade := "", note := "",
    fileURL := none, fileName := none, updatedAt := now }

/-- `CreateAssignmentPage.onSubmit`: snapshot the current roster into a fresh
`statusMap`, one `Assigned` entry per attendee. -/
def createStatusMap (attendees : List Attendee) (now : Nat) :
    List (String × StatusEntry) :=
  attendees.foldl (fun m a => setKey m a.id (assignedEntry a now)) []

/-- `handleSyncAttendees`: for every attendee of the (re-read) roster missing
from the status map (`!newStatusMap[attendee.id]`), add a fresh `Assigned`
entry; existing entries are left untouched. -/
def handleSyncAttendees (allAttendees : List Attendee)
    (statusMap : List (String × StatusEntry)) (now : Nat) :
    List (String × StatusEntry) :=
  allAttendees.foldl
    (fun m a =>
      if (getKey m a.id).isSome then m
      else setKey m a.id (assignedEntry a now))
    statusMap

/-! ## Submissions (student assignments page: `handleSubmitAssignment`;
review page: `handleSaveReview`) -/

/-- A document of the `submissions` collection, keyed by
`assignmentId_studentId`. `feedback`/`grade` are absent until graded. -/
structure Submission where
  assignmentId : String
  studentId : String
  studentEmail : String
  notes : String
  submittedAt : Nat
  status : String
  feedback : Option String
  grade : Option String
deriving DecidableEq, Repr

/-- `handleSubmitAssignment`: `setDoc` (merge) the submission document keyed
`assignmentId_studentId` with status `"submitted"` and the note, then a
field-path `updateDoc` on the assignment sets that student's `statusMap`
entry to `Submitted` with the note and clears `fileURL`/`fileName` to the
empty string. Modelled for students present in the status map (the update
paths target an existing entry). -/
def handleSubmitAssignment (submissions : List (String × Submission))
    (statusMap : List (String × StatusEntry))
    (assignmentId studentId userEmail note : String) (now : Nat) :
    List (String × Submission) × List (String × StatusEntry) :=
  let subId := assignmentId ++ "_" ++ studentId
  let prev := getKey submissions subId
  let newSub : Submission :=
    { assignmentId := assignmentId, studentId := studentId,
      studentEmail := userEmail, notes := note, submittedAt := now,
      status := "submitted",
      feedback := prev.bind (fun s => s.feedback),
      grade := prev.bind (fun s => s.grade) }
  (setKey submissions subId newSub,
   updateEntry statusMap studentId
     (fun e => { e with status := AssignmentStatus.Submitted, note := note,
                        fileURL := some "", fileName := some "",
                        updatedAt := now }))

/-- `handleSaveReview`: `updateDoc` the submission with feedback, grade and
status `"graded"` (fails if the document is missing), then a field-path
`updateDoc` on the assignment sets that student's `statusMap` entry to
`Graded` with the grade. Feedback is not written into the status map. -/
def handleSaveReview (submissions : List (String × Submission))
    (statusMap : List (String × StatusEntry))
    (submissionId : String) (grade feedback : String) (now : Nat) :
    Option (List (String × Submission) × List (String × StatusEntry)) :=
  match getKey submissions submissionId with
  | none => none
  | some sub =>
    some
      (setKey submissions submissionId
        { sub with feedback := some feedback, grade := some grade,
                   status := "graded" },
       updateEntry statusMap sub.studentId
         (fun e => { e with status := AssignmentStatus.Graded, grade := grade,
                            updatedAt := now }))

/-! ## Aggregation/reporting (attendance summary page, `processSummary`) -/

/-- One row of the per-student attendance summary table. -/
structure StudentSummaryRow where
  studentId : String
  studentName : String
  email : String
  present : Nat
  absent : Nat
  leave : Nat
  total : Nat
  attendancePercentage : ℤ
deriving DecidableEq, Repr

/-- The per-student body of `processSummary`: count this student's records by
status and derive the percentage, guarding the zero denominator. -/
def processSummaryRow (student : Attendee)
    (studentAttendance : List AttendanceRecord) : StudentSummaryRow :=
  let present := (studentAttendance.filter
    (fun att => att.status = AttendanceStatus.Present)).length
  let absent := (studentAttendance.filter
    (fun att => att.status = AttendanceStatus.Absent)).length
  let leave := (studentAttendance.filter
    (fun att => att.status = AttendanceStatus.Leave)).length
  let denominator := present + absent + leave
  let attendancePercentage : ℤ :=
    if denominator > 0 then round (((present : ℚ) / (denominator : ℚ)) * 100)
    else 0
  { studentId := student.id, studentName := student.name, email := student.email,
    present := present, absent := absent, leave := leave,
    total := present + absent + leave,
    attendancePercentage := attendancePercentage }

/-! ## Concrete sample data -/

def demoA1 : Attendee :=
  { id := "s1", name := "Alice", email := "alice@x.com", createdAt := 1,
    restoredAt := none }

def demoA2 : Attendee :=
  { id := "s2", name := "Bob", email := "bob@x.com", createdAt := 2,
    restoredAt := none }

def demoA3 : Attendee :=
  { id := "s3", name := "Cara", email := "cara@x.com", createdAt := 3,
    restoredAt := none }

def demoRec (i : String) (st : AttendanceStatus) : AttendanceRecord :=
  { id := "2026-01-01_" ++ i, studentId := i, studentName := "", email := "",
    date := "2026-01-01", status := st, note := "", updatedAt := 0 }

def demoExisting : List (String × AttendanceRecord) :=
  [("s1", demoRec "s1" AttendanceStatus.Absent)]

def demoEdits : String → Option AttendanceEdit :=
  fun i => if i = "s2" then some { status := AttendanceStatus.Present, note := "" }
           else none

def demoArch1 : ArchivedAttendee :=
  { id := "s1", name := "Alice", email := "alice@x.com", createdAt := 1,
    restoredAt := none, originalId := some "s1", deletedAt := 4 }

def demoMap : List (String × StatusEntry) :=
  [("s1", assignedEntry demoA1 3), ("s2", assignedEntry demoA2 3)]

def demoSub : Submission :=
  { assignmentId := "hw1", studentId := "s1", studentEmail := "alice@x.com",
    notes := "mynote", submittedAt := 9, status := "submitted",
    feedback := none, grade := none }

def demoC9Recs : List AttendanceRecord :=
  [demoRec "a" AttendanceStatus.Present, demoRec "b" AttendanceStatus.Present,
   demoRec "c" AttendanceStatus.Present, demoRec "d" AttendanceStatus.Absent]

/-! ## Theorems: store operations -/

theorem getKey_setKey_self {α : Type} (m : List (String × α)) (k : String) (v : α) :
    getKey (setKey m k v) k = some v := by
  induction m with
  | nil => simp [setKey, getKey]
  | cons p ps ih =>
    by_cases h : p.1 = k
    · simp [setKey, h, getKey]
    · simp [setKey, h, getKey, ih]

theorem getKey_setKey_ne {α : Type} (m : List (String × α)) (k k' : String) (v : α)
    (h : k' ≠ k) : getKey (setKey m k v) k' = getKey m k' := by
  induction m with
  | nil => simp [setKey, getKey, Ne.symm h]
  | cons p ps ih =>
    by_cases hp : p.1 = k
    · subst hp
      simp [setKey, getKey, Ne.symm h]
    · simp [setKey, hp, getKey, ih]

theorem isSome_getKey_setKey {α : Type} (m : List (String × α)) (k k' : String) (v : α)
    (h : (getKey m k').isSome) : (getKey (setKey m k v) k').isSome := by
  by_cases hk : k' = k
  · subst hk; simp [getKey_setKey_self]
  · rwa [getKey_setKey_ne m k k' v hk]

theorem getKey_updateEntry_self {α : Type} (m : List (String × α)) (k : String)
    (f : α → α) : getKey (updateEntry m k f) k = (getKey m k).map f := by
  induction m with
  | nil => simp [updateEntry, getKey]
  | cons p ps ih =>
    by_cases hp : p.1 = k
    · simp [updateEntry, getKey, hp]
    · simp [updateEntry, getKey, hp, ih]

theorem getKey_updateEntry_ne {α : Type} (m : List (String × α)) (k k' : String)
    (f : α → α) (h : k' ≠ k) : getKey (updateEntry m k f) k' = getKey m k' := by
  induction m with
  | nil => simp [updateEntry, getKey]
  | cons p ps ih =>
    by_cases hp : p.1 = k
    · subst hp
      simp [updateEntry, getKey, Ne.symm h, ih]
    · by_cases hp' : p.1 = k'
      · simp [updateEntry, getKey, hp, hp', h]
      · simp [updateEntry, getKey, hp, hp', ih]

/-! ## Theorems: attendance summary tally -/

theorem foldl_tallyStep (records : List (String × AttendanceRecord)) (acc : Summary) :
    (records.foldl tallyStep acc).present = acc.present + countStatus records .Present ∧
    (records.foldl tallyStep acc).absent = acc.absent + countStatus records .Absent ∧
    (records.foldl tallyStep acc).leave = acc.leave + countStatus records .Leave := by
  induction records generalizing acc with
  | nil => simp [countStatus]
  | cons p ps ih =>
    rcases ih (tallyStep acc p) with ⟨h1, h2, h3⟩
    cases hst : p.2.status <;>
      simp [List.foldl_cons, countStatus, List.filter, hst, tallyStep] at h1 h2 h3 ⊢ <;>
      omega

theorem countStatus_sum (records : List (String × AttendanceRecord)) :
    countStatus records .Present + countStatus records .Absent +
      countStatus records .Leave = records.length := by
  induction records with
  | nil => simp [countStatus]
  | cons p ps ih =>
    simp only [countStatus] at ih ⊢
    cases hst : p.2.status <;> simp [List.filter, hst] <;> omega

/-! ## Theorems: the SaveDay merge fold -/

theorem saveDayRecords_cons (dateStr : String)
    (existing : List (String × AttendanceRecord)) (b : Attendee)
    (rest : List Attendee) (ed : String → Option AttendanceEdit) (now : Nat) :
    saveDayRecords dateStr existing (b :: rest) ed now =
      saveDayRecords dateStr
        (match ed b.id with
         | some e => setKey existing b.id (mkRecord dateStr b e now)
         | none => existing)
        rest ed now := rfl

theorem saveDay_getKey_no_edit (dateStr : String)
    (existing : List (String × AttendanceRecord)) (attendees : List Attendee)
    (ed : String → Option AttendanceEdit) (now : Nat) (k : String)
    (h : ∀ a ∈ attendees, a.id = k → ed a.id = none) :
    getKey (saveDayRecords dateStr existing attendees ed now) k =
      getKey existing k := by
  induction attendees generalizing existing with
  | nil => rfl
  | cons b rest ih =>
    rw [saveDayRecords_cons]
    cases he : ed b.id with
    | none =>
      exact ih existing (fun a ha hk => h a (List.mem_cons_of_mem b ha) hk)
    | some e =>
      have hbk : b.id ≠ k := by
        intro hbk
        have := h b (List.mem_cons_self b rest) hbk
        rw [he] at this
        exact Option.noConfusion this
      rw [ih (setKey existing b.id (mkRecord dateStr b e now))
            (fun a ha hk => h a (List.mem_cons_of_mem b ha) hk)]
      exact getKey_setKey_ne existing b.id k (mkRecord dateStr b e now)
        (fun hk => hbk hk.symm)

theorem saveDay_getKey_not_mem (dateStr : String)
    (existing : List (String × AttendanceRecord)) (attendees : List Attendee)
    (ed : String → Option AttendanceEdit) (now : Nat) (k : String)
    (h : k ∉ attendees.map (fun a => a.id)) :
    getKey (saveDayRecords dateStr existing attendees ed now) k =
      getKey existing k := by
  induction attendees generalizing existing with
  | nil => rfl
  | cons b rest ih =>
    have hbk : b.id ≠ k := by
      intro hbk
      exact h (by simp [hbk])
    have hrest : k ∉ rest.map (fun a => a.id) := by
      intro hk
      exact h (by simp [List.mem_map] at hk ⊢; right; exact hk)
    rw [saveDayRecords_cons]
    cases he : ed b.id with
    | none => exact ih existing hrest
    | some e =>
      rw [ih (setKey existing b.id (mkRecord dateStr b e now)) hrest]
      exact getKey_setKey_ne existing b.id k (mkRecord dateStr b e now)
        (fun hk => hbk hk.symm)

theorem saveDay_getKey_edit (dateStr : String)
    (existing : List (String × AttendanceRecord)) (attendees : List Attendee)
    (ed : String → Option AttendanceEdit) (now : Nat) (a : Attendee)
    (e : AttendanceEdit)
    (hnd : (attendees.map (fun a => a.id)).Nodup)
    (ha : a ∈ attendees) (he : ed a.id = some e) :
    getKey (saveDayRecords dateStr existing attendees ed now) a.id =
      some (mkRecord dateStr a e now) := by
  induction attendees generalizing existing with
  | nil => cases ha
  | cons b rest ih =>
    rw [saveDayRecords_cons]
    rcases List.mem_cons.mp ha with hab | ha'
    · subst hab
      rw [he]
      have hrest : a.id ∉ rest.map (fun x => x.id) :=
        (List.nodup_cons.mp hnd).1
      rw [saveDay_getKey_not_mem dateStr _ rest ed now a.id hrest]
      exact getKey_setKey_self existing a.id (mkRecord dateStr a e now)
    · have hnd' : (rest.map (fun x => x.id)).Nodup := (List.nodup_cons.mp hnd).2
      cases hb : ed b.id with
      | none => exact ih existing hnd' ha'
      | some eb => exact ih _ hnd' ha'

/-- C1: after every SaveDay, the written summary equals the tally of the
merged records by status: `present`/`absent`/`leave` count the records with
that status, `total` is the number of records, and the three counts sum to
the number of records — for every pre-existing record set and every edit set. -/
theorem saveDay_summary_is_tally (dateStr : String)
    (existing : List (String × AttendanceRecord)) (attendees : List Attendee)
    (attendanceData : String → Option AttendanceEdit) (now : Nat) :
    (computeSummary (saveDayRecords dateStr existing attendees attendanceData now)).present =
      countStatus (saveDayRecords dateStr existing attendees attendanceData now) .Present ∧
    (computeSummary (saveDayRecords dateStr existing attendees attendanceData now)).absent =
      countStatus (saveDayRecords dateStr existing attendees attendanceData now) .Absent ∧
    (computeSummary (saveDayRecords dateStr existing attendees attendanceData now)).leave =
      countStatus (saveDayRecords dateStr existing attendees attendanceData now) .Leave ∧
    (computeSummary (saveDayRecords dateStr existing attendees attendanceData now)).total =
      (saveDayRecords dateStr existing attendees attendanceData now).length ∧
    (computeSummary (saveDayRecords dateStr existing attendees attendanceData now)).present +
      (computeSummary (saveDayRecords dateStr existing attendees attendanceData now)).absent +
      (computeSummary (saveDayRecords dateStr existing attendees attendanceData now)).leave =
      (saveDayRecords dateStr existing attendees attendanceData now).length := by
  set records := saveDayRecords dateStr existing attendees attendanceData now with hr
  obtain ⟨h1, h2, h3⟩ :=
    foldl_tallyStep records { present := 0, absent := 0, leave := 0, total := 0 }
  have hsum := countStatus_sum records
  simp only [computeSummary]
  refine ⟨by simpa using h1, by simpa using h2, by simpa using h3, by trivial, ?_⟩
  simp only [h1, h2, h3]
  simpa using hsum

/-- C2: SaveDay merges edits into the existing day document: an id whose
roster entries carry no chosen status keeps its existing record (or stays
absent), and every roster attendee with a chosen status gets exactly the
freshly built record; no default status is ever invented. -/
theorem saveDay_merge_preserves_and_upserts (dateStr : String)
    (existing : List (String × AttendanceRecord)) (attendees : List Attendee)
    (attendanceData : String → Option AttendanceEdit) (now : Nat)
    (hnd : (attendees.map (fun a => a.id)).Nodup) :
    (∀ k, (∀ a ∈ attendees, a.id = k → attendanceData a.id = none) →
      getKey (saveDayRecords dateStr existing attendees attendanceData now) k =
        getKey existing k) ∧
    (∀ a ∈ attendees, ∀ e, attendanceData a.id = some e →
      getKey (saveDayRecords dateStr existing attendees attendanceData now) a.id =
        some (mkRecord dateStr a e now)) ∧
    (∀ k, getKey existing k = none →
      (∀ a ∈ attendees, a.id = k → attendanceData a.id = none) →
      getKey (saveDayRecords dateStr existing attendees attendanceData now) k = none) := by
  refine ⟨?_, ?_, ?_⟩
  · intro k hk
    exact saveDay_getKey_no_edit dateStr existing attendees attendanceData now k hk
  · intro a ha e he
    exact saveDay_getKey_edit dateStr existing attendees attendanceData now a e hnd ha he
  · intro k hnone hk
    rw [saveDay_getKey_no_edit dateStr existing attendees attendanceData now k hk]
    exact hnone

theorem saveDay_merge_preserves_and_upserts_witness :
    getKey (saveDayRecords "2026-01-01" demoExisting [demoA1, demoA2] demoEdits 7) "s1" =
      getKey demoExisting "s1" ∧
    getKey (saveDayRecords "2026-01-01" demoExisting [demoA1, demoA2] demoEdits 7) "s2" =
      some (mkRecord "2026-01-01" demoA2
        { status := AttendanceStatus.Present, note := "" } 7) ∧
    getKey (saveDayRecords "2026-01-01" demoExisting [demoA1, demoA2] demoEdits 7) "s9" =
      none := by
  have h := saveDay_merge_preserves_and_upserts "2026-01-01" demoExisting
    [demoA1, demoA2] demoEdits 7 (by decide)
  refine ⟨h.1 "s1" (by decide), ?_, h.2.2 "s9" (by decide) (by decide)⟩
  exact h.2.1 demoA2 (by decide)
    { status := AttendanceStatus.Present, note := "" } (by decide)

/-! ## Theorems: day-document key consistency -/

theorem mem_setKey {α : Type} (m : List (String × α)) (k : String) (v : α) :
    ∀ p ∈ setKey m k v, p ∈ m ∨ p = (k, v) := by
  induction m with
  | nil => intro p hp; simp [setKey] at hp; right; exact hp
  | cons q qs ih =>
    intro p hp
    by_cases hq : q.1 = k
    · simp [setKey, hq] at hp
      rcases hp with hp | hp
      · right; exact hp
      · left; exact List.mem_cons_of_mem q hp
    · simp [setKey, hq] at hp
      rcases hp with hp | hp
      · left; simp [hp]
      · rcases ih p hp with h | h
        · left; exact List.mem_cons_of_mem q h
        · right; exact h

theorem keyConsistent_setKey (dateStr : String)
    (m : List (String × AttendanceRecord)) (k : String) (v : AttendanceRecord)
    (hm : keyConsistent dateStr m)
    (hv : v.studentId = k ∧ v.date = dateStr ∧ v.id = dateStr ++ "_" ++ k) :
    keyConsistent dateStr (setKey m k v) := by
  intro p hp
  rcases mem_setKey m k v p hp with h | h
  · exact hm p h
  · subst h
    exact hv

/-- C10: SaveDay preserves internal key-consistency of the day document:
if every existing record is stored under its own student id, carries the
document's date and has `id = date_studentId`, then so does every record of
the merged document it writes. -/
theorem saveDay_keyConsistent (dateStr : String)
    (existing : List (String × AttendanceRecord)) (attendees : List Attendee)
    (attendanceData : String → Option AttendanceEdit) (now : Nat)
    (h : keyConsistent dateStr existing) :
    keyConsistent dateStr
      (saveDayRecords dateStr existing attendees attendanceData now) := by
  induction attendees generalizing existing with
  | nil => exact h
  | cons b rest ih =>
    rw [saveDayRecords_cons]
    cases hb : attendanceData b.id with
    | none => exact ih existing h
    | some e =>
      exact ih _ (keyConsistent_setKey dateStr existing b.id
        (mkRecord dateStr b e now) h ⟨rfl, rfl, rfl⟩)

/-! ## Theorems: roster store -/

theorem self_mem_setArchById (l : List ArchivedAttendee) (x : ArchivedAttendee) :
    x ∈ setArchById l x := by
  induction l with
  | nil => simp [setArchById]
  | cons b rest ih =>
    by_cases hb : b.id = x.id
    · simp [setArchById, hb]
    · simp [setArchById, hb]
      right
      exact ih

theorem findArchById_setArchById (l : List ArchivedAttendee) (x : ArchivedAttendee) :
    findArchById (setArchById l x) x.id = some x := by
  induction l with
  | nil => simp [setArchById, findArchById]
  | cons b rest ih =>
    by_cases hb : b.id = x.id
    · simp [setArchById, hb, findArchById]
    · simp only [findArchById] at ih
      simp [setArchById, hb, findArchById, List.find?, ih]

theorem findById_setById (l : List Attendee) (x : Attendee) :
    findById (setById l x) x.id = some x := by
  induction l with
  | nil => simp [setById, findById]
  | cons b rest ih =>
    by_cases hb : b.id = x.id
    · simp [setById, hb, findById]
    · simp only [findById] at ih
      simp [setById, hb, findById, List.find?, ih]

theorem mem_setById_of_ne (l : List Attendee) (x b : Attendee)
    (hb : b ∈ l) (hne : b.id ≠ x.id) : b ∈ setById l x := by
  induction l with
  | nil => cases hb
  | cons c rest ih =>
    rcases List.mem_cons.mp hb with hc | hc
    · subst hc
      by_cases h : b.id = x.id
      · exact absurd h hne
      · simp [setById, h]
    · by_cases h : c.id = x.id
      · simp [setById, h]
        right
        exact hc
      · simp [setById, h]
        right
        exact ih hc

theorem findArchById_filter_ne (l : List ArchivedAttendee) (i : String) :
    findArchById (l.filter (fun x => x.id ≠ i)) i = none := by
  induction l with
  | nil => simp [findArchById]
  | cons b rest ih =>
    simp only [findArchById] at ih
    by_cases hb : b.id = i
    · simp [List.filter, hb, findArchById, ih]
    · simp [List.filter, hb, findArchById, List.find?, ih]

/-- C3: Add(name, email) fails with DuplicateEmail if and only if the email
exactly (case-sensitively) matches the email of some active or some archived
attendee; otherwise it creates a new active entry. After soft-deleting an
attendee holding the email, adding it again still fails: archived emails
block reuse. -/
theorem addAttendee_duplicate_iff (active : List Attendee)
    (archived : List ArchivedAttendee) (name email newId : String) (now : Nat) :
    (addAttendee active archived name email newId now =
        Except.error "DuplicateEmail" ↔
      (∃ a ∈ active, a.email = email) ∨ (∃ b ∈ archived, b.email = email)) ∧
    (¬((∃ a ∈ active, a.email = email) ∨ (∃ b ∈ archived, b.email = email)) →
      addAttendee active archived name email newId now =
        Except.ok (active ++ [{ id := newId, name := name, email := email,
                                createdAt := now, restoredAt := none }])) ∧
    (∀ a ∈ active, a.email = email → ∀ d : Nat,
      addAttendee (handleSoftDelete active archived a d).1
        (handleSoftDelete active archived a d).2 name email newId now =
        Except.error "DuplicateEmail") := by
  refine ⟨?_, ?_, ?_⟩
  · simp only [addAttendee]
    by_cases h : (active.any (fun a => a.email = email) ||
        archived.any (fun a => a.email = email)) = true
    · simp only [h, if_true]
      simp only [Bool.or_eq_true, List.any_eq_true, decide_eq_true_eq] at h
      simpa using h
    · simp only [h]
      simp only [Bool.or_eq_true, List.any_eq_true, decide_eq_true_eq] at h
      simpa using h
  · intro hn
    have h : (active.any (fun a => a.email = email) ||
        archived.any (fun a => a.email = email)) = false := by
      simp only [Bool.or_eq_false_iff, List.any_eq_false, decide_eq_true_eq]
      push_neg at hn
      exact ⟨fun a ha => hn.1 a ha, fun b hb => hn.2 b hb⟩
    simp [addAttendee, h]
  · intro a ha hae d
    simp only [addAttendee, handleSoftDelete]
    have h : (setArchById archived
        { id := a.id, name := a.name, email := a.email, createdAt := a.createdAt,
          restoredAt := a.restoredAt, originalId := some a.id,
          deletedAt := d }).any (fun b => b.email = email) = true := by
      simp only [List.any_eq_true, decide_eq_true_eq]
      exact ⟨_, self_mem_setArchById archived _, hae⟩
    simp [h]

theorem addAttendee_duplicate_iff_witness :
    addAttendee [demoA1] [] "Eve" "alice@x.com" "e1" 9 =
      Except.error "DuplicateEmail" ∧
    addAttendee (handleSoftDelete [demoA1] [] demoA1 5).1
      (handleSoftDelete [demoA1] [] demoA1 5).2 "Eve" "alice@x.com" "e1" 9 =
      Except.error "DuplicateEmail" ∧
    addAttendee [demoA1] [] "Eve" "eve@x.com" "e1" 9 =
      Except.ok [demoA1,
        { id := "e1", name := "Eve", email := "eve@x.com", createdAt := 9,
          restoredAt := none }] := by
  have h := addAttendee_duplicate_iff [demoA1] [] "Eve" "alice@x.com" "e1" 9
  have h2 := addAttendee_duplicate_iff [demoA1] [] "Eve" "eve@x.com" "e1" 9
  exact ⟨h.1.mpr (Or.inl ⟨demoA1, by decide, by decide⟩),
         h.2.2 demoA1 (by decide) (by decide) 5,
         h2.2.1 (by decide)⟩

/-- C4: Restore fails (leaving both collections unchanged) whenever some
active attendee already holds the archived email; otherwise it re-creates the
active entry under `originalId || id` with the archived name and email and
removes the archive entry, preserving all other documents. Soft delete always
records `originalId = ` the id the attendee had before deletion, so the
re-created entry gets the original id. -/
theorem handleRestore_spec (active : List Attendee)
    (archived : List ArchivedAttendee) (a : ArchivedAttendee) (now : Nat) :
    ((∃ b ∈ active, b.email = a.email) →
       handleRestore active archived a now = (active, archived)) ∧
    ((∀ b ∈ active, b.email ≠ a.email) →
       findById (handleRestore active archived a now).1
           (a.originalId.getD a.id) = some (restoredAttendee a now) ∧
       (restoredAttendee a now).name = a.name ∧
       (restoredAttendee a now).email = a.email ∧
       findArchById (handleRestore active archived a now).2 a.id = none ∧
       (∀ x ∈ archived, x.id ≠ a.id →
          x ∈ (handleRestore active archived a now).2) ∧
       (∀ b ∈ active, b.id ≠ a.originalId.getD a.id →
          b ∈ (handleRestore active archived a now).1)) ∧
    (∀ (b : Attendee) (d : Nat), ∃ arch,
        findArchById (handleSoftDelete active archived b d).2 b.id = some arch ∧
        arch.originalId = some b.id ∧ arch.name = b.name ∧
        arch.email = b.email) := by
  refine ⟨?_, ?_, ?_⟩
  · intro h
    have hc : active.any (fun b => b.email = a.email) = true := by
      simp only [List.any_eq_true, decide_eq_true_eq]
      exact h
    simp [handleRestore, hc]
  · intro h
    have hc : active.any (fun b => b.email = a.email) = false := by
      simp only [List.any_eq_false, decide_eq_true_eq]
      exact h
    have hres : handleRestore active archived a now =
        (setById active (restoredAttendee a now),
         archived.filter (fun x => x.id ≠ a.id)) := by
      simp [handleRestore, hc]
    rw [hres]
    refine ⟨?_, rfl, rfl, findArchById_filter_ne archived a.id, ?_, ?_⟩
    · exact findById_setById active (restoredAttendee a now)
    · intro x hx hne
      exact List.mem_filter.mpr ⟨hx, by simpa using hne⟩
    · intro b hb hne
      exact mem_setById_of_ne active (restoredAttendee a now) b hb hne
  · intro b d
    refine ⟨{ id := b.id, name := b.name, email := b.email,
              createdAt := b.createdAt, restoredAt := b.restoredAt,
              originalId := some b.id, deletedAt := d }, ?_, rfl, rfl, rfl⟩
    simpa [handleSoftDelete] using
      findArchById_setArchById archived
        { id := b.id, name := b.name, email := b.email, createdAt := b.createdAt,
          restoredAt := b.restoredAt, originalId := some b.id, deletedAt := d }

theorem handleRestore_spec_witness :
    handleRestore [demoA1] [demoArch1] demoArch1 9 = ([demoA1], [demoArch1]) ∧
    findById (handleRestore [demoA2] [demoArch1] demoArch1 9).1 "s1" =
      some (restoredAttendee demoArch1 9) ∧
    findArchById (handleRestore [demoA2] [demoArch1] demoArch1 9).2 "s1" =
      none := by
  have h1 := handleRestore_spec [demoA1] [demoArch1] demoArch1 9
  have h2 := handleRestore_spec [demoA2] [demoArch1] demoArch1 9
  have hok := h2.2.1 (by decide)
  exact ⟨h1.1 ⟨demoA1, by decide, by decide⟩, hok.1, hok.2.2.2.1⟩

/-! ## Theorems: assignment status map creation and roster sync -/

theorem sync_cons (b : Attendee) (rest : List Attendee)
    (m : List (String × StatusEntry)) (now : Nat) :
    handleSyncAttendees (b :: rest) m now =
      handleSyncAttendees rest
        (if (getKey m b.id).isSome then m
         else setKey m b.id (assignedEntry b now)) now := rfl

theorem sync_preserves (roster : List Attendee)
    (m : List (String × StatusEntry)) (now : Nat) (k : String) (e : StatusEntry)
    (h : getKey m k = some e) :
    getKey (handleSyncAttendees roster m now) k = some e := by
  induction roster generalizing m with
  | nil => exact h
  | cons b rest ih =>
    rw [sync_cons]
    cases hb : (getKey m b.id).isSome with
    | true => simpa [hb] using ih m h
    | false =>
      have hk : k ≠ b.id := by
        intro hk
        rw [← hk, h] at hb
        simp at hb
      simp only [hb, Bool.false_eq_true, if_false]
      exact ih _ (by rw [getKey_setKey_ne m b.id k _ hk]; exact h)

theorem sync_not_mem (roster : List Attendee)
    (m : List (String × StatusEntry)) (now : Nat) (k : String)
    (h : k ∉ roster.map (fun a => a.id)) :
    getKey (handleSyncAttendees roster m now) k = getKey m k := by
  induction roster generalizing m with
  | nil => rfl
  | cons b rest ih =>
    have hbk : k ≠ b.id := by
      intro hk
      exact h (by simp [hk])
    have hrest : k ∉ rest.map (fun a => a.id) := fun hk =>
      h (List.mem_cons_of_mem _ hk)
    rw [sync_cons]
    cases hb : (getKey m b.id).isSome with
    | true => simpa [hb] using ih m hrest
    | false =>
      simp only [hb, Bool.false_eq_true, if_false]
      rw [ih _ hrest]
      exact getKey_setKey_ne m b.id k _ hbk

theorem sync_adds (roster : List Attendee) (m : List (String × StatusEntry))
    (now : Nat) (a : Attendee)
    (hnd : (roster.map (fun x => x.id)).Nodup)
    (ha : a ∈ roster) (h : getKey m a.id = none) :
    getKey (handleSyncAttendees roster m now) a.id =
      some (assignedEntry a now) := by
  induction roster generalizing m with
  | nil => cases ha
  | cons b rest ih =>
    rw [sync_cons]
    rcases List.mem_cons.mp ha with hab | ha'
    · subst hab
      rw [h]
      simp only [Option.isSome_none, Bool.false_eq_true, if_false]
      rw [sync_not_mem rest _ now a.id (List.nodup_cons.mp hnd).1]
      exact getKey_setKey_self m a.id (assignedEntry a now)
    · have hba : a.id ≠ b.id := by
        intro hk
        apply (List.nodup_cons.mp hnd).1
        show b.id ∈ List.map (fun x => x.id) rest
        rw [← hk]
        exact List.mem_map.mpr ⟨a, ha', rfl⟩
      have hnd' := (List.nodup_cons.mp hnd).2
      cases hb : (getKey m b.id).isSome with
      | true => simpa [hb] using ih m hnd' ha' h
      | false =>
        simp only [hb, Bool.false_eq_true, if_false]
        exact ih _ hnd' ha' (by rw [getKey_setKey_ne m b.id a.id _ hba]; exact h)

theorem sync_isSome_mono (roster : List Attendee)
    (m : List (String × StatusEntry)) (now : Nat) (k : String)
    (h : (getKey m k).isSome) :
    (getKey (handleSyncAttendees roster m now) k).isSome := by
  induction roster generalizing m with
  | nil => exact h
  | cons b rest ih =>
    rw [sync_cons]
    cases hb : (getKey m b.id).isSome with
    | true => simpa [hb] using ih m h
    | false =>
      simp only [hb, Bool.false_eq_true, if_false]
      exact ih _ (isSome_getKey_setKey m b.id k _ h)

theorem sync_all_isSome (roster : List Attendee)
    (m : List (String × StatusEntry)) (now : Nat) :
    ∀ a ∈ roster, (getKey (handleSyncAttendees roster m now) a.id).isSome := by
  induction roster generalizing m with
  | nil => intro a ha; cases ha
  | cons b rest ih =>
    intro a ha
    rw [sync_cons]
    rcases List.mem_cons.mp ha with hab | ha'
    · subst hab
      cases hb : (getKey m a.id).isSome with
      | true => simpa [hb] using sync_isSome_mono rest m now a.id hb
      | false =>
        simp only [hb, Bool.false_eq_true, if_false]
        exact sync_isSome_mono rest _ now a.id
          (by rw [getKey_setKey_self]; rfl)
    · cases hb : (getKey m b.id).isSome with
      | true => simpa [hb] using ih m a ha'
      | false =>
        simp only [hb, Bool.false_eq_true, if_false]
        exact ih _ a ha'

theorem sync_noop (roster : List Attendee) (m : List (String × StatusEntry))
    (now : Nat) (h : ∀ a ∈ roster, (getKey m a.id).isSome) :
    handleSyncAttendees roster m now = m := by
  induction roster with
  | nil => rfl
  | cons b rest ih =>
    rw [sync_cons]
    have hb := h b (List.mem_cons_self b rest)
    simp only [hb, if_true]
    exact ih (fun a ha => h a (List.mem_cons_of_mem b ha))

theorem createFold_not_mem (attendees : List Attendee)
    (m : List (String × StatusEntry)) (now : Nat) (k : String)
    (h : k ∉ attendees.map (fun a => a.id)) :
    getKey (attendees.foldl (fun m a => setKey m a.id (assignedEntry a now)) m) k =
      getKey m k := by
  induction attendees generalizing m with
  | nil => rfl
  | cons b rest ih =>
    have hbk : k ≠ b.id := by
      intro hk
      exact h (by simp [hk])
    have hrest : k ∉ rest.map (fun a => a.id) := by
      intro hk
      exact h (by simp [List.mem_map] at hk ⊢; right; exact hk)
    rw [List.foldl_cons, ih _ hrest]
    exact getKey_setKey_ne m b.id k _ hbk

theorem createFold_mem (attendees : List Attendee)
    (m : List (String × StatusEntry)) (now : Nat) (a : Attendee)
    (hnd : (attendees.map (fun x => x.id)).Nodup) (ha : a ∈ attendees) :
    getKey (attendees.foldl (fun m a => setKey m a.id (assignedEntry a now)) m) a.id =
      some (assignedEntry a now) := by
  induction attendees generalizing m with
  | nil => cases ha
  | cons b rest ih =>
    rw [List.foldl_cons]
    rcases List.mem_cons.mp ha with hab | ha'
    · subst hab
      rw [createFold_not_mem rest _ now a.id (List.nodup_cons.mp hnd).1]
      exact getKey_setKey_self m a.id (assignedEntry a now)
    · exact ih _ (List.nodup_cons.mp hnd).2 ha'

/-- C5: assignment creation snapshots exactly the current roster into the
status map with every entry the fresh `Assigned` entry (empty grade and
note); attendees outside the snapshot get no entry until a sync; sync adds a
fresh `Assigned` entry for every roster member missing from the map and
never removes or overwrites an existing entry. -/
theorem createStatusMap_and_sync_spec (attendees roster : List Attendee)
    (statusMap : List (String × StatusEntry)) (now now2 : Nat)
    (hnd : (attendees.map (fun a => a.id)).Nodup)
    (hndr : (roster.map (fun a => a.id)).Nodup) :
    (∀ a ∈ attendees, getKey (createStatusMap attendees now) a.id =
       some (assignedEntry a now)) ∧
    (∀ k, k ∉ attendees.map (fun a => a.id) →
       getKey (createStatusMap attendees now) k = none) ∧
    (∀ k e, getKey statusMap k = some e →
       getKey (handleSyncAttendees roster statusMap now2) k = some e) ∧
    (∀ a ∈ roster, getKey statusMap a.id = none →
       getKey (handleSyncAttendees roster statusMap now2) a.id =
         some (assignedEntry a now2)) ∧
    (∀ k, getKey statusMap k = none → k ∉ roster.map (fun a => a.id) →
       getKey (handleSyncAttendees roster statusMap now2) k = none) := by
  refine ⟨?_, ?_, ?_, ?_, ?_⟩
  · intro a ha
    exact createFold_mem attendees [] now a hnd ha
  · intro k hk
    exact createFold_not_mem attendees [] now k hk
  · intro k e he
    exact sync_preserves roster statusMap now2 k e he
  · intro a ha h
    exact sync_adds roster statusMap now2 a hndr ha h
  · intro k hnone hk
    rw [sync_not_mem roster statusMap now2 k hk]
    exact hnone

theorem createStatusMap_and_sync_spec_witness :
    getKey (createStatusMap [demoA1, demoA2] 3) "s1" =
      some (assignedEntry demoA1 3) ∧
    getKey (createStatusMap [demoA1, demoA2] 3) "s3" = none ∧
    getKey (handleSyncAttendees [demoA1, demoA2, demoA3]
        (createStatusMap [demoA1, demoA2] 3) 5) "s3" =
      some (assignedEntry demoA3 5) ∧
    getKey (handleSyncAttendees [demoA1, demoA2, demoA3]
        (createStatusMap [demoA1, demoA2] 3) 5) "s1" =
      some (assignedEntry demoA1 3) := by
  have h := createStatusMap_and_sync_spec [demoA1, demoA2] [demoA1, demoA2, demoA3]
    (createStatusMap [demoA1, demoA2] 3) 3 5 (by decide) (by decide)
  exact ⟨h.1 demoA1 (by decide), h.2.1 "s3" (by decide),
         h.2.2.2.1 demoA3 (by decide) (by decide),
         h.2.2.1 "s1" (assignedEntry demoA1 3) (h.1 demoA1 (by decide))⟩

/-- C6: SyncRoster is idempotent: syncing twice against the same roster (at
any write times) gives the same status map as syncing once — the second call
adds no entries and changes none. -/
theorem handleSyncAttendees_idempotent (roster : List Attendee)
    (m : List (String × StatusEntry)) (now now2 : Nat) :
    handleSyncAttendees roster (handleSyncAttendees roster m now) now2 =
      handleSyncAttendees roster m now :=
  sync_noop roster (handleSyncAttendees roster m now) now2
    (fun a ha => sync_all_isSome roster m now a ha)

/-! ## Theorems: submissions and grading -/

/-- C7: after StudentSubmit, the submission document keyed
`assignmentId_studentId` exists with status `"submitted"` and the given note,
the student's status-map entry becomes `Submitted` with that note and with
`fileURL`/`fileName` cleared to the empty string, and every other student's
entry is unchanged. -/
theorem handleSubmitAssignment_spec (submissions : List (String × Submission))
    (statusMap : List (String × StatusEntry))
    (assignmentId studentId userEmail note : String) (now : Nat)
    (e : StatusEntry) (he : getKey statusMap studentId = some e) :
    (getKey (handleSubmitAssignment submissions statusMap assignmentId studentId
          userEmail note now).1 (assignmentId ++ "_" ++ studentId)).map
        (fun s => (s.status, s.notes, s.assignmentId, s.studentId)) =
      some ("submitted", note, assignmentId, studentId) ∧
    getKey (handleSubmitAssignment submissions statusMap assignmentId studentId
        userEmail note now).2 studentId =
      some { e with status := AssignmentStatus.Submitted, note := note,
                    fileURL := some "", fileName := some "",
                    updatedAt := now } ∧
    (∀ k, k ≠ studentId →
      getKey (handleSubmitAssignment submissions statusMap assignmentId studentId
          userEmail note now).2 k = getKey statusMap k) := by
  refine ⟨?_, ?_, ?_⟩
  · simp only [handleSubmitAssignment]
    rw [getKey_setKey_self]
    rfl
  · simp only [handleSubmitAssignment]
    rw [getKey_updateEntry_self, he]
    rfl
  · intro k hk
    simp only [handleSubmitAssignment]
    exact getKey_updateEntry_ne statusMap studentId k _ hk

theorem handleSubmitAssignment_spec_witness :
    (getKey (handleSubmitAssignment [] demoMap "hw1" "s1" "alice@x.com"
          "mynote" 9).1 "hw1_s1").map
        (fun s => (s.status, s.notes, s.assignmentId, s.studentId)) =
      some ("submitted", "mynote", "hw1", "s1") ∧
    getKey (handleSubmitAssignment [] demoMap "hw1" "s1" "alice@x.com"
        "mynote" 9).2 "s1" =
      some { (assignedEntry demoA1 3) with
               status := AssignmentStatus.Submitted,
               note := "mynote", fileURL := some "", fileName := some "",
               updatedAt := 9 } ∧
    getKey (handleSubmitAssignment [] demoMap "hw1" "s1" "alice@x.com"
        "mynote" 9).2 "s2" = getKey demoMap "s2" := by
  have h := handleSubmitAssignment_spec [] demoMap "hw1" "s1" "alice@x.com"
    "mynote" 9 (assignedEntry demoA1 3) (by decide)
  exact ⟨h.1, h.2.1, h.2.2 "s2" (by decide)⟩

/-- C8: after Grade, the submission has status `"graded"` with the given
grade and feedback; the student's status-map entry has status `Graded` and
the same grade (feedback is not mirrored: the entry keeps its `note`,
`fileURL` and `fileName`, as the record update touches only `status`, `grade`
and `updatedAt`); all other submissions and all other students' entries are
unchanged. -/
theorem handleSaveReview_spec (submissions : List (String × Submission))
    (statusMap : List (String × StatusEntry))
    (submissionId grade feedback : String) (now : Nat)
    (sub : Submission) (hs : getKey submissions submissionId = some sub)
    (e : StatusEntry) (he : getKey statusMap sub.studentId = some e) :
    (handleSaveReview submissions statusMap submissionId grade feedback now).isSome ∧
    Option.map (fun r => getKey r.1 submissionId)
        (handleSaveReview submissions statusMap submissionId grade feedback now) =
      some (some { sub with feedback := some feedback, grade := some grade,
                            status := "graded" }) ∧
    (∀ s, s ≠ submissionId →
      Option.map (fun r => getKey r.1 s)
          (handleSaveReview submissions statusMap submissionId grade feedback now) =
        some (getKey submissions s)) ∧
    Option.map (fun r => getKey r.2 sub.studentId)
        (handleSaveReview submissions statusMap submissionId grade feedback now) =
      some (some { e with status := AssignmentStatus.Graded, grade := grade,
                          updatedAt := now }) ∧
    (∀ k, k ≠ sub.studentId →
      Option.map (fun r => getKey r.2 k)
          (handleSaveReview submissions statusMap submissionId grade feedback now) =
        some (getKey statusMap k)) := by
  have hr : handleSaveReview submissions statusMap submissionId grade feedback now =
      some (setKey submissions submissionId
              { sub with feedback := some feedback, grade := some grade,
                         status := "graded" },
            updateEntry statusMap sub.studentId
              (fun x => { x with status := AssignmentStatus.Graded, grade := grade,
                                 updatedAt := now })) := by
    simp [handleSaveReview, hs]
  rw [hr]
  refine ⟨rfl, ?_, ?_, ?_, ?_⟩
  · simp [getKey_setKey_self]
  · intro s hsne
    simp [getKey_setKey_ne submissions submissionId s _ hsne]
  · simp [getKey_updateEntry_self, he]
  · intro k hk
    simp [getKey_updateEntry_ne statusMap sub.studentId k _ hk]

theorem handleSaveReview_spec_witness :
    Option.map (fun r => getKey r.1 "hw1_s1")
        (handleSaveReview [("hw1_s1", demoSub)] demoMap "hw1_s1" "A" "good" 11) =
      some (some { demoSub with feedback := some "good", grade := some "A",
                                status := "graded" }) ∧
    Option.map (fun r => getKey r.2 "s1")
        (handleSaveReview [("hw1_s1", demoSub)] demoMap "hw1_s1" "A" "good" 11) =
      some (some { (assignedEntry demoA1 3) with
                     status := AssignmentStatus.Graded, grade := "A",
                     updatedAt := 11 }) ∧
    Option.map (fun r => getKey r.2 "s2")
        (handleSaveReview [("hw1_s1", demoSub)] demoMap "hw1_s1" "A" "good" 11) =
      some (getKey demoMap "s2") := by
  have h := handleSaveReview_spec [("hw1_s1", demoSub)] demoMap "hw1_s1" "A"
    "good" 11 demoSub (by decide) (assignedEntry demoA1 3) (by decide)
  exact ⟨h.2.1, h.2.2.2.1, h.2.2.2.2 "s2" (by decide)⟩

/-! ## Theorems: attendance percentage aggregation -/

/-- C9: each per-student summary row's percentage is
`round(present / (present + absent + leave) × 100)` when the denominator is
positive and `0` when it is zero; in particular 3 Present + 1 Absent gives
75%, and no records give 0% without dividing by zero. -/
theorem processSummaryRow_percentage (student : Attendee)
    (recs : List AttendanceRecord) :
    ((processSummaryRow student recs).attendancePercentage =
      if 0 < recs.countP (fun r => r.status = AttendanceStatus.Present) +
             recs.countP (fun r => r.status = AttendanceStatus.Absent) +
             recs.countP (fun r => r.status = AttendanceStatus.Leave) then
        round (((recs.countP (fun r => r.status = AttendanceStatus.Present) : ℚ) /
          ((recs.countP (fun r => r.status = AttendanceStatus.Present) +
            recs.countP (fun r => r.status = AttendanceStatus.Absent) +
            recs.countP (fun r => r.status = AttendanceStatus.Leave) : Nat) : ℚ)) * 100)
      else 0) ∧
    (processSummaryRow student demoC9Recs).attendancePercentage = 75 ∧
    (processSummaryRow student []).attendancePercentage = 0 := by
  refine ⟨?_, ?_, ?_⟩
  · simp [processSummaryRow, List.countP_eq_length_filter]
  · simp +decide only [processSummaryRow, demoC9Recs, demoRec, List.filter]
    norm_num [round_eq]
  · simp [processSummaryRow]

theorem saveDay_keyConsistent_witness :
    keyConsistent "2026-01-01"
      (saveDayRecords "2026-01-01" demoExisting [demoA1, demoA2] demoEdits 7) :=
  saveDay_keyConsistent "2026-01-01" demoExisting [demoA1, demoA2] demoEdits 7
    (by
      intro p hp
      simp [demoExisting] at hp
      subst hp
      exact ⟨rfl, rfl, by decide⟩)

end Portal
